import Mathlib

/-!
Verification of the resilience layer of `src/fetch_stats.py` (repository
TreeCityWes/XBURN-STATS), centred on `get_historical_events` (chunked
historical log retrieval with per-window retries) and `analyze_burn_period`
(burn-event aggregation).

Modelling conventions:
* Block numbers are natural numbers (the script only ever passes
  non-negative block numbers).
* The body of the `try:` block of one retry attempt — `getattr` on the
  event, the ABI scan, `keccak`, and `w3.eth.get_logs` — is folded into a
  single query oracle `q : Nat → Nat → Nat → Except Unit (List Raw)`
  taking the window's start block, end block and the 0-based attempt
  index; it either yields the raw log records of the window or fails
  (a Python exception is modelled as `Except.error ()`).  Indexing by the
  attempt number lets an oracle behave differently on re-tries, which
  models the changing outside world across repeated identical RPC calls.
* `event.process_log` is folded into a decode oracle
  `d : Raw → Except Unit Rec`.
* `print` diagnostics and `time.sleep` have no modelled effect; the
  per-window-failure print (one line per skipped window) and the
  per-record decode-error print (one line per dropped record) are
  modelled as the counters `skipped` and `dropped` of the result, and
  the issued per-window query attempts are recorded in the `queries`
  trace, so that the observable behaviour of the function is captured.
-/

namespace FetchStats

/-- Query oracle: one retry attempt's log retrieval for the window
`[startBlk, endBlk]` at attempt index `a` (the whole `try:` body of
`get_historical_events` up to and including `w3.eth.get_logs`). -/
abbrev Query (Raw : Type) := Nat → Nat → Nat → Except Unit (List Raw)

/-- Decode oracle: `event.process_log` applied to one raw record. -/
abbrev Decode (Raw Rec : Type) := Raw → Except Unit Rec

/-- Line 95 of `fetch_stats.py`: `max_retries = 3`. -/
def max_retries : Nat := 3

/-- Line 96 of `fetch_stats.py`: `chunk_size = 9900`. -/
def chunk_size : Nat := 9900

/-- The script's `main` opens a single connection to the one configured
`RPC_URL`; there is no fallback endpoint list anywhere in the file, so the
number of fallback endpoints is zero. -/
def fallback_count : Nat := 0

/-- Boolean test for the error case of an `Except` value (a raised
Python exception in this model). -/
def isError {e a : Type} : Except e a → Bool
  | .error _ => true
  | .ok _ => false

/-- Lines 123-129 of `fetch_stats.py`: the `for evt in events:` loop.
Each raw record is decoded; a record whose decode raises is dropped
(the inner `except` prints and continues) and counted.  Returns the
successfully decoded records in order, paired with the dropped count. -/
def decodeRecords {Raw Rec : Type} (d : Decode Raw Rec) : List Raw → List Rec × Nat
  | [] => ([], 0)
  | r :: rs =>
    let rest := decodeRecords d rs
    match d r with
    | .ok ev => (ev :: rest.1, rest.2)
    | .error _ => (rest.1, rest.2 + 1)

/-- One retry attempt (the whole `try:` body, lines 105-131): run the
query; if it raises, the exception propagates to the retry loop's
`except`; if it succeeds, decode every retrieved record (decode failures
are caught inside and never propagate). -/
def processAttempt {Raw Rec : Type} (q : Query Raw) (d : Decode Raw Rec)
    (startBlk endBlk a : Nat) : Except Unit (List Rec × Nat) :=
  match q startBlk endBlk a with
  | .ok raws => .ok (decodeRecords d raws)
  | .error err => .error err

/-- Result of processing one window: the decoded records appended for the
window, the number of dropped (undecodable) records, whether some attempt
succeeded (`ok = false` means the window was skipped after exhausting all
attempts, which the script reports with the line-134 print), and the trace
of issued query attempts as (startBlk, endBlk, attempt) triples. -/
structure WindowResult (Rec : Type) where
  events : List Rec
  dropped : Nat
  ok : Bool
  queries : List (Nat × Nat × Nat)
deriving DecidableEq

/-- Lines 104-135 of `fetch_stats.py`: `for attempt in range(max_retries):`
with `break` on success.  `a` is the current attempt index and the second
argument the number of attempts remaining. -/
def attemptLoop {Raw Rec : Type} (q : Query Raw) (d : Decode Raw Rec)
    (startBlk endBlk : Nat) : Nat → Nat → WindowResult Rec
  | _, 0 => ⟨[], 0, false, []⟩
  | a, n+1 =>
    match processAttempt q d startBlk endBlk a with
    | .ok res => ⟨res.1, res.2, true, [(startBlk, endBlk, a)]⟩
    | .error _ =>
      let r := attemptLoop q d startBlk endBlk (a+1) n
      ⟨r.events, r.dropped, r.ok, (startBlk, endBlk, a) :: r.queries⟩

/-- One whole window of the scan: up to `max_retries` attempts starting at
attempt index 0. -/
def processWindow {Raw Rec : Type} (q : Query Raw) (d : Decode Raw Rec)
    (startBlk endBlk : Nat) : WindowResult Rec :=
  attemptLoop q d startBlk endBlk 0 max_retries

/-- Observable outcome of `get_historical_events`: `events` is the
function's Python return value `all_events`; `skipped` counts the
windows skipped after exhausting all attempts (the line-134 diagnostic
prints); `dropped` counts records dropped by decode failures (the
line-128 diagnostic prints); `queries` is the ordered trace of issued
per-window query attempts. -/
structure Outcome (Rec : Type) where
  events : List Rec
  skipped : Nat
  dropped : Nat
  queries : List (Nat × Nat × Nat)
deriving DecidableEq

/-- Lines 100-137 of `fetch_stats.py`: the
`while start_block <= to_block:` loop, written with explicit fuel so the
definition computes by kernel reduction.  Each iteration sets
`end_block = min(start_block + chunk_size, to_block)`, processes the
window, and continues from `end_block + 1`.  The fuel
`to_block + 1 - start_block` used below is always sufficient because each
iteration advances `start_block` by at least one. -/
def chunkLoopF {Raw Rec : Type} (q : Query Raw) (d : Decode Raw Rec) :
    Nat → Nat → Nat → Outcome Rec
  | 0, _, _ => ⟨[], 0, 0, []⟩
  | fuel+1, startBlk, toBlk =>
    if startBlk ≤ toBlk then
      let endBlk := min (startBlk + chunk_size) toBlk
      let w := processWindow q d startBlk endBlk
      let rest := chunkLoopF q d fuel (endBlk + 1) toBlk
      ⟨w.events ++ rest.events, (if w.ok then 0 else 1) + rest.skipped,
       w.dropped + rest.dropped, w.queries ++ rest.queries⟩
    else ⟨[], 0, 0, []⟩

/-- Lines 93-139 of `fetch_stats.py`: `get_historical_events`, with the
raw-log query and the record decode supplied as oracles. -/
def get_historical_events {Raw Rec : Type} (q : Query Raw) (d : Decode Raw Rec)
    (from_block to_block : Nat) : Outcome Rec :=
  chunkLoopF q d (to_block + 1 - from_block) from_block to_block

/-- The sequence of inclusive windows the loop of `get_historical_events`
walks for chunk width `cs`, fuelled version. -/
def windowsF (cs : Nat) : Nat → Nat → Nat → List (Nat × Nat)
  | 0, _, _ => []
  | fuel+1, s, hi =>
    if s ≤ hi then
      (s, min (s + cs) hi) :: windowsF cs fuel (min (s + cs) hi + 1) hi
    else []

/-- The sequence of inclusive windows the loop of `get_historical_events`
walks for the range `[s, hi]` and chunk width `cs`. -/
def windows (cs s hi : Nat) : List (Nat × Nat) := windowsF cs (hi + 1 - s) s hi

/-- Window-by-window restatement of the scan loop: fold `processWindow`
over an explicit window list, combining results exactly as the loop does. -/
def runWindows {Raw Rec : Type} (q : Query Raw) (d : Decode Raw Rec) :
    List (Nat × Nat) → Outcome Rec
  | [] => ⟨[], 0, 0, []⟩
  | w :: ws =>
    let r := processWindow q d w.1 w.2
    let rest := runWindows q d ws
    ⟨r.events ++ rest.events, (if r.ok then 0 else 1) + rest.skipped,
     r.dropped + rest.dropped, r.queries ++ rest.queries⟩

/-- Decidable check that a window list partitions the inclusive range
`[lo, hi]` exactly: the first window starts at `lo`, every window is
well-formed and stays inside the range, each later window starts one
block after its predecessor ends, and the last window ends at `hi`
(encoded by the leftover range `[lo, hi]` with `lo = hi + 1` being
covered by the empty list). -/
def coversRange (lo hi : Nat) : List (Nat × Nat) → Bool
  | [] => lo == hi + 1
  | (a, b) :: rest =>
    (a == lo) && Nat.ble a b && Nat.ble b hi && coversRange (b + 1) hi rest

/-- One decoded `XENBurned` event as `analyze_burn_period` reads it:
`event['args']['amount']` (a uint256, hence a natural number) and
`event['args']['user']`. -/
structure BurnEvent where
  amount : Nat
  user : String
deriving DecidableEq

/-- The dictionary returned by `analyze_burn_period`
(lines 168-190 of `fetch_stats.py`). -/
structure BurnStats where
  total_burns : Nat
  total_burned : String
  average_burn_size : String
  unique_burners : Nat
  largest_burn : String
  smallest_burn : String
deriving DecidableEq

/-- Python's built-in `max` on a list of naturals.  The `[]` case is
unreachable where the function is used (Python `max` raises on an empty
sequence, but every call site guards with a non-emptiness test). -/
def listMax : List Nat → Nat
  | [] => 0
  | a :: as => as.foldl Nat.max a

/-- Python's built-in `min` on a list of naturals; same remarks as for
`listMax`. -/
def listMin : List Nat → Nat
  | [] => 0
  | a :: as => as.foldl Nat.min a

/-- Lines 168-190 of `fetch_stats.py`: `analyze_burn_period`.  Python's
`str` of a non-negative integer is the decimal numeral `Nat.repr`,
`sum(...) // len(...)` is natural floor division, and `len(set(...))`
is the number of distinct elements, computed as `List.dedup.length`. -/
def analyze_burn_period (burn_events : List BurnEvent) : BurnStats :=
  if burn_events.isEmpty then
    ⟨0, "0", "0", 0, "0", "0"⟩
  else
    let burn_amounts := burn_events.map (fun e => e.amount)
    let unique_burners := (burn_events.map (fun e => e.user)).dedup.length
    ⟨burn_events.length,
     Nat.repr burn_amounts.sum,
     if burn_events.isEmpty then "0"
       else Nat.repr (burn_amounts.sum / burn_events.length),
     unique_burners,
     if burn_amounts.isEmpty then "0" else Nat.repr (listMax burn_amounts),
     if burn_amounts.isEmpty then "0" else Nat.repr (listMin burn_amounts)⟩

/-- Correctness statement for `analyze_burn_period` on one event list:
every field agrees with the intended aggregate of the input. -/
def burnStatsCorrect (evs : List BurnEvent) : Prop :=
  (analyze_burn_period evs).total_burns = evs.length ∧
  (analyze_burn_period evs).total_burned = Nat.repr (evs.map (fun e => e.amount)).sum ∧
  (analyze_burn_period evs).average_burn_size
    = Nat.repr ((evs.map (fun e => e.amount)).sum / evs.length) ∧
  (analyze_burn_period evs).unique_burners = (evs.map (fun e => e.user)).toFinset.card ∧
  (∃ m, m ∈ evs.map (fun e => e.amount) ∧
    (∀ x ∈ evs.map (fun e => e.amount), x ≤ m) ∧
    (analyze_burn_period evs).largest_burn = Nat.repr m) ∧
  (∃ m, m ∈ evs.map (fun e => e.amount) ∧
    (∀ x ∈ evs.map (fun e => e.amount), m ≤ x) ∧
    (analyze_burn_period evs).smallest_burn = Nat.repr m)

/-- Query oracle that always succeeds with no raw records. -/
def qOkEmpty : Query Nat := fun _ _ _ => .ok []

/-- Decode oracle that decodes every raw record to itself. -/
def dOk : Decode Nat Nat := fun r => .ok r

/-- Query oracle that raises on every call (a persistent failure, for
example a structural one: the requested event name absent from the
supplied ABI makes the line-110 `next` raise on every attempt). -/
def qAllFail : Query Nat := fun _ _ _ => .error ()

/-- Decode oracle that raises on every record. -/
def dAllFail : Decode Nat Nat := fun _ => .error ()

/-- Query oracle that raises on every attempt for the middle window of
the range `[0, 25000]` (the window starting at block 9901) and succeeds
elsewhere, returning the window bounds as the raw records. -/
def qMidFail : Query Nat := fun s e _ =>
  if s == 9901 then .error () else .ok [s, e]

/-- Query oracle that raises on attempts 0 and 1 and succeeds from
attempt 2 on. -/
def qTwoFail : Query Nat := fun _ _ a =>
  if a < 2 then .error () else .ok [7]

/-- Empty range: below its start block the window list is empty. -/
lemma windowsF_nil {cs : Nat} (fuel s hi : Nat) (h : hi < s) :
    windowsF cs fuel s hi = [] := by
  cases fuel with
  | zero => rfl
  | succ n => simp [windowsF, Nat.not_le.mpr h]

/-- The fuelled window list does not depend on the fuel once the fuel is
at least the number of blocks remaining. -/
lemma windowsF_congr {cs : Nat} :
    ∀ fuelA fuelB s hi : Nat, hi + 1 - s ≤ fuelA → hi + 1 - s ≤ fuelB →
      windowsF cs fuelA s hi = windowsF cs fuelB s hi := by
  intro fuelA
  induction fuelA with
  | zero =>
    intro fuelB s hi h1 _
    have hs : hi < s := by omega
    rw [windowsF_nil _ _ _ hs, windowsF_nil _ _ _ hs]
  | succ n ih =>
    intro fuelB s hi h1 h2
    by_cases hs : s ≤ hi
    · have hse : s ≤ min (s + cs) hi := Nat.le_min.mpr ⟨Nat.le_add_right s cs, hs⟩
      have hehi : min (s + cs) hi ≤ hi := Nat.min_le_right _ _
      cases fuelB with
      | zero => omega
      | succ m =>
        simp only [windowsF, if_pos hs]
        congr 1
        exact ih m _ hi (by omega) (by omega)
    · rw [windowsF_nil _ _ _ (by omega), windowsF_nil _ _ _ (by omega)]

/-- Unfolding equation of the window list, mirroring one iteration of the
`while` loop. -/
lemma windows_eq (cs s hi : Nat) :
    windows cs s hi = if s ≤ hi then
      (s, min (s + cs) hi) :: windows cs (min (s + cs) hi + 1) hi
    else [] := by
  unfold windows
  by_cases hs : s ≤ hi
  · have hse : s ≤ min (s + cs) hi := Nat.le_min.mpr ⟨Nat.le_add_right s cs, hs⟩
    have hehi : min (s + cs) hi ≤ hi := Nat.min_le_right _ _
    have h1 : hi + 1 - s = (hi - s) + 1 := by omega
    rw [h1, if_pos hs]
    simp only [windowsF, if_pos hs]
    congr 1
    exact windowsF_congr _ _ _ hi (by omega) (by omega)
  · rw [if_neg hs, windowsF_nil _ _ _ (by omega)]

/-- The scan loop equals the fold of `processWindow` over the fuelled
window list, for every fuel value. -/
lemma chunkLoopF_eq_runWindows {Raw Rec : Type} (q : Query Raw) (d : Decode Raw Rec) :
    ∀ fuel s hi : Nat,
      chunkLoopF q d fuel s hi = runWindows q d (windowsF chunk_size fuel s hi) := by
  intro fuel
  induction fuel with
  | zero => intro s hi; rfl
  | succ n ih =>
    intro s hi
    by_cases hs : s ≤ hi
    · simp only [chunkLoopF, windowsF, if_pos hs, runWindows, ih]
    · simp only [chunkLoopF, windowsF, if_neg hs, runWindows]

/-- Decomposition of `get_historical_events` window by window. -/
lemma get_eq_runWindows {Raw Rec : Type} (q : Query Raw) (d : Decode Raw Rec)
    (s hi : Nat) :
    get_historical_events q d s hi = runWindows q d (windows chunk_size s hi) :=
  chunkLoopF_eq_runWindows q d (hi + 1 - s) s hi

/-- Componentwise description of the window fold: events and query traces
are concatenated in window order, skipped windows are the windows no
attempt of which succeeded, dropped counts are summed. -/
lemma runWindows_spec {Raw Rec : Type} (q : Query Raw) (d : Decode Raw Rec) :
    ∀ ws : List (Nat × Nat),
      runWindows q d ws =
        ⟨ws.flatMap (fun w => (processWindow q d w.1 w.2).events),
         (ws.filter (fun w => !(processWindow q d w.1 w.2).ok)).length,
         (ws.map (fun w => (processWindow q d w.1 w.2).dropped)).sum,
         ws.flatMap (fun w => (processWindow q d w.1 w.2).queries)⟩ := by
  intro ws
  induction ws with
  | nil => rfl
  | cons w ws ih =>
    by_cases h : (processWindow q d w.1 w.2).ok
    · simp [runWindows, ih, h, List.filter_cons]
    · simp [runWindows, ih, h, List.filter_cons, Nat.add_comm]

/-- The retry loop issues at most as many query attempts as it has
attempts remaining. -/
lemma attemptLoop_queries_length {Raw Rec : Type} (q : Query Raw) (d : Decode Raw Rec)
    (s e : Nat) : ∀ n a : Nat, (attemptLoop q d s e a n).queries.length ≤ n := by
  intro n
  induction n with
  | zero => intro a; simp [attemptLoop]
  | succ m ih =>
    intro a
    cases h : processAttempt q d s e a with
    | ok res => simp [attemptLoop, h]
    | error err =>
      have := ih (a + 1)
      simp only [attemptLoop, h, List.length_cons]
      omega

/-- Every query attempt recorded by the retry loop carries the window's
bounds and an attempt index below the starting index plus the number of
attempts remaining. -/
lemma attemptLoop_queries_mem {Raw Rec : Type} (q : Query Raw) (d : Decode Raw Rec)
    (s e : Nat) : ∀ (n a : Nat) (t : Nat × Nat × Nat),
      t ∈ (attemptLoop q d s e a n).queries →
      t.1 = s ∧ t.2.1 = e ∧ a ≤ t.2.2 ∧ t.2.2 < a + n := by
  intro n
  induction n with
  | zero => intro a t ht; simp [attemptLoop] at ht
  | succ m ih =>
    intro a t ht
    cases h : processAttempt q d s e a with
    | ok res =>
      simp [attemptLoop, h] at ht
      subst ht
      exact ⟨rfl, rfl, Nat.le_refl a, Nat.lt_add_of_pos_right (Nat.succ_pos m)⟩
    | error err =>
      simp only [attemptLoop, h, List.mem_cons] at ht
      rcases ht with rfl | ht
      · exact ⟨rfl, rfl, Nat.le_refl a, Nat.lt_add_of_pos_right (Nat.succ_pos m)⟩
      · have := ih (a + 1) t ht
        exact ⟨this.1, this.2.1, by omega, by omega⟩

/-- When every remaining attempt's query raises, the retry loop appends
no events, drops no records, and ends with the window not succeeded. -/
lemma attemptLoop_fail {Raw Rec : Type} (q : Query Raw) (d : Decode Raw Rec)
    (s e : Nat) : ∀ n a : Nat,
      (∀ i, a ≤ i → i < a + n → isError (q s e i) = true) →
      (attemptLoop q d s e a n).events = [] ∧
      (attemptLoop q d s e a n).ok = false ∧
      (attemptLoop q d s e a n).dropped = 0 := by
  intro n
  induction n with
  | zero => intro a _; exact ⟨rfl, rfl, rfl⟩
  | succ m ih =>
    intro a hfail
    have ha : isError (q s e a) = true := hfail a (Nat.le_refl a) (by omega)
    cases hq : q s e a with
    | ok raws => rw [hq] at ha; simp [isError] at ha
    | error err =>
      have hpa : processAttempt q d s e a = .error err := by
        simp [processAttempt, hq]
      have hrest := ih (a + 1) (fun i h1 h2 => hfail i (by omega) (by omega))
      simp only [attemptLoop, hpa]
      exact hrest

/-- `processWindow` version of `attemptLoop_fail`: a window all of whose
`max_retries` attempts raise is skipped with no events. -/
lemma processWindow_fail {Raw Rec : Type} (q : Query Raw) (d : Decode Raw Rec)
    (s e : Nat) (hfail : ∀ i, i < max_retries → isError (q s e i) = true) :
    (processWindow q d s e).events = [] ∧
    (processWindow q d s e).ok = false ∧
    (processWindow q d s e).dropped = 0 :=
  attemptLoop_fail q d s e max_retries 0 (fun i _ h2 => hfail i (by omega))

/-- The decoded part of `decodeRecords` keeps, in order, exactly the
records the decode oracle accepts. -/
lemma decodeRecords_fst {Raw Rec : Type} (d : Decode Raw Rec) :
    ∀ rs : List Raw,
      (decodeRecords d rs).1 = rs.filterMap (fun r => (d r).toOption) := by
  intro rs
  induction rs with
  | nil => rfl
  | cons r rs ih =>
    cases h : d r with
    | ok ev => simp [decodeRecords, h, ih, List.filterMap_cons, Except.toOption]
    | error err => simp [decodeRecords, h, ih, List.filterMap_cons, Except.toOption]

/-- The drop counter of `decodeRecords` counts exactly the records the
decode oracle rejects. -/
lemma decodeRecords_snd {Raw Rec : Type} (d : Decode Raw Rec) :
    ∀ rs : List Raw,
      (decodeRecords d rs).2 = (rs.filter (fun r => isError (d r))).length := by
  intro rs
  induction rs with
  | nil => rfl
  | cons r rs ih =>
    cases h : d r with
    | ok ev => simp [decodeRecords, h, ih, List.filter_cons, isError]
    | error err => simp [decodeRecords, h, ih, List.filter_cons, isError]

/-- Every retrieved record is either decoded or dropped: nothing else
happens to it. -/
lemma decodeRecords_length {Raw Rec : Type} (d : Decode Raw Rec) :
    ∀ rs : List Raw,
      (decodeRecords d rs).1.length + (decodeRecords d rs).2 = rs.length := by
  intro rs
  induction rs with
  | nil => rfl
  | cons r rs ih =>
    cases h : d r with
    | ok ev => simp only [decodeRecords, h, List.length_cons]; omega
    | error err => simp only [decodeRecords, h, List.length_cons]; omega

/-- For a non-empty range the fuelled window list partitions the range
exactly, provided the fuel covers the range. -/
lemma windowsF_covers (cs hi : Nat) : ∀ fuel s : Nat,
    hi + 1 - s ≤ fuel → s ≤ hi →
    coversRange s hi (windowsF cs fuel s hi) = true := by
  intro fuel
  induction fuel with
  | zero => intro s h1 h2; omega
  | succ n ih =>
    intro s h1 h2
    have hse : s ≤ min (s + cs) hi := Nat.le_min.mpr ⟨Nat.le_add_right s cs, h2⟩
    have hehi : min (s + cs) hi ≤ hi := Nat.min_le_right _ _
    simp only [windowsF, if_pos h2, coversRange, Bool.and_eq_true, beq_self_eq_true,
      Nat.ble_eq, true_and]
    refine ⟨⟨hse, hehi⟩, ?_⟩
    by_cases he : min (s + cs) hi = hi
    · rw [he, windowsF_nil _ _ _ (by omega)]
      simp [coversRange]
    · exact ih (min (s + cs) hi + 1) (by omega) (by omega)

/-- Every window the loop produces is well-formed and spans at most the
chunk width. -/
lemma windowsF_width (cs hi : Nat) : ∀ fuel s : Nat, ∀ w ∈ windowsF cs fuel s hi,
    w.1 ≤ w.2 ∧ w.2 - w.1 ≤ cs := by
  intro fuel
  induction fuel with
  | zero => intro s w hw; simp [windowsF] at hw
  | succ n ih =>
    intro s w hw
    by_cases hs : s ≤ hi
    · simp only [windowsF, if_pos hs, List.mem_cons] at hw
      rcases hw with rfl | hw
      · refine ⟨Nat.le_min.mpr ⟨Nat.le_add_right s cs, hs⟩, ?_⟩
        have := Nat.min_le_left (s + cs) hi
        simp only
        omega
      · exact ih _ w hw
    · simp [windowsF, if_neg hs] at hw

/-- A non-empty range always produces at least one window. -/
lemma windows_ne_nil (cs s hi : Nat) (h : s ≤ hi) : windows cs s hi ≠ [] := by
  rw [windows_eq, if_pos h]
  exact List.cons_ne_nil _ _

/-- Replacing one list element's image by `[]` when its image is already
`[]` does not change a concatenation. -/
lemma flatMap_if_eq {a b : Type} [DecidableEq a] (f : a → List b) (w : a)
    (hw : f w = []) : ∀ l : List a,
    l.flatMap f = (l.map (fun v => if v = w then [] else f v)).flatMap id := by
  intro l
  induction l with
  | nil => rfl
  | cons x l ih =>
    simp only [List.flatMap_cons, List.map_cons, ih]
    by_cases h : x = w
    · subst h; simp [hw]
    · simp [h]

/-- A list containing an element satisfying the predicate has a
non-empty filtering. -/
lemma one_le_length_filter {a : Type} (p : a → Bool) (l : List a) (x : a)
    (hx : x ∈ l) (hp : p x = true) : 1 ≤ (l.filter p).length := by
  have : x ∈ l.filter p := List.mem_filter.mpr ⟨hx, hp⟩
  cases hf : l.filter p with
  | nil => rw [hf] at this; simp at this
  | cons y ys => simp [hf]

/-- The left fold of `Nat.max` over a list computes a member of the list
that bounds every member, seed included. -/
lemma foldl_max_spec : ∀ (as : List Nat) (a : Nat),
    as.foldl Nat.max a ∈ a :: as ∧ ∀ x ∈ a :: as, x ≤ as.foldl Nat.max a := by
  intro as
  induction as with
  | nil => intro a; simp
  | cons b bs ih =>
    intro a
    have h := ih (Nat.max a b)
    constructor
    · have hfold : List.foldl Nat.max a (b :: bs) = List.foldl Nat.max (Nat.max a b) bs := rfl
      rcases List.mem_cons.mp h.1 with hm | hm
      · rw [hfold, hm]
        rcases Nat.le_total a b with hab | hab
        · have h2 : Nat.max a b = b := Nat.max_eq_right hab
          rw [h2]; simp
        · have h2 : Nat.max a b = a := Nat.max_eq_left hab
          rw [h2]; simp
      · rw [hfold]
        exact List.mem_cons_of_mem _ (List.mem_cons_of_mem _ hm)
    · intro x hx
      rcases List.mem_cons.mp hx with rfl | hx
      · calc x ≤ Nat.max x b := Nat.le_max_left x b
          _ ≤ bs.foldl Nat.max (Nat.max x b) := h.2 _ (List.mem_cons_self _ _)
          _ = (b :: bs).foldl Nat.max x := rfl
      · rcases List.mem_cons.mp hx with rfl | hx
        · calc x ≤ Nat.max a x := Nat.le_max_right a x
            _ ≤ bs.foldl Nat.max (Nat.max a x) := h.2 _ (List.mem_cons_self _ _)
            _ = (x :: bs).foldl Nat.max a := rfl
        · exact h.2 x (List.mem_cons_of_mem _ hx)

/-- The left fold of `Nat.min` over a list computes a member of the list
below every member, seed included. -/
lemma foldl_min_spec : ∀ (as : List Nat) (a : Nat),
    as.foldl Nat.min a ∈ a :: as ∧ ∀ x ∈ a :: as, as.foldl Nat.min a ≤ x := by
  intro as
  induction as with
  | nil => intro a; simp
  | cons b bs ih =>
    intro a
    have h := ih (Nat.min a b)
    constructor
    · have hfold : List.foldl Nat.min a (b :: bs) = List.foldl Nat.min (Nat.min a b) bs := rfl
      rcases List.mem_cons.mp h.1 with hm | hm
      · rw [hfold, hm]
        rcases Nat.le_total a b with hab | hab
        · have h2 : Nat.min a b = a := Nat.min_eq_left hab
          rw [h2]; simp
        · have h2 : Nat.min a b = b := Nat.min_eq_right hab
          rw [h2]; simp
      · rw [hfold]
        exact List.mem_cons_of_mem _ (List.mem_cons_of_mem _ hm)
    · intro x hx
      rcases List.mem_cons.mp hx with rfl | hx
      · calc (b :: bs).foldl Nat.min x = bs.foldl Nat.min (Nat.min x b) := rfl
          _ ≤ Nat.min x b := h.2 _ (List.mem_cons_self _ _)
          _ ≤ x := Nat.min_le_left x b
      · rcases List.mem_cons.mp hx with rfl | hx
        · calc (x :: bs).foldl Nat.min a = bs.foldl Nat.min (Nat.min a x) := rfl
            _ ≤ Nat.min a x := h.2 _ (List.mem_cons_self _ _)
            _ ≤ x := Nat.min_le_right a x
        · exact h.2 x (List.mem_cons_of_mem _ hx)

/-- `listMax` on a non-empty list is a member bounding every member. -/
lemma listMax_spec (l : List Nat) (h : l ≠ []) :
    listMax l ∈ l ∧ ∀ x ∈ l, x ≤ listMax l := by
  cases l with
  | nil => exact absurd rfl h
  | cons a as => exact foldl_max_spec as a

/-- `listMin` on a non-empty list is a member below every member. -/
lemma listMin_spec (l : List Nat) (h : l ≠ []) :
    listMin l ∈ l ∧ ∀ x ∈ l, listMin l ≤ x := by
  cases l with
  | nil => exact absurd rfl h
  | cons a as => exact foldl_min_spec as a

/-- With the always-succeeding query each window is queried exactly once
at attempt 0, so mapping the trace back to its window bounds recovers the
window list. -/
lemma runWindows_qOkEmpty_queries (d : Decode Nat Nat) :
    ∀ ws : List (Nat × Nat),
      (runWindows qOkEmpty d ws).queries.map (fun t => (t.1, t.2.1)) = ws := by
  intro ws
  induction ws with
  | nil => rfl
  | cons w ws ih =>
    have hw : processWindow qOkEmpty d w.1 w.2 = ⟨[], 0, true, [(w.1, w.2, 0)]⟩ := rfl
    simp [runWindows, hw, ih]

/-- With the always-raising query every window is attempted exactly
`max_retries` times and skipped, no events are returned, and nothing is
decoded. -/
lemma runWindows_qAllFail (d : Decode Nat Nat) : ∀ ws : List (Nat × Nat),
    runWindows qAllFail d ws =
      ⟨[], ws.length, 0,
       ws.flatMap (fun w => [(w.1, w.2, 0), (w.1, w.2, 1), (w.1, w.2, 2)])⟩ := by
  intro ws
  induction ws with
  | nil => rfl
  | cons w ws ih =>
    have hw : processWindow qAllFail d w.1 w.2
        = ⟨[], 0, false, [(w.1, w.2, 0), (w.1, w.2, 1), (w.1, w.2, 2)]⟩ := rfl
    simp [runWindows, ih, hw, Nat.add_comm]

/-- Length of the trace of an all-failing scan: `max_retries` attempts
per window. -/
lemma length_flatMap_three : ∀ ws : List (Nat × Nat),
    (ws.flatMap (fun w => [(w.1, w.2, 0), (w.1, w.2, 1), (w.1, w.2, 2)])).length
      = max_retries * ws.length := by
  intro ws
  induction ws with
  | nil => rfl
  | cons w ws ih =>
    simp only [List.flatMap_cons, List.length_append, ih, List.length_cons,
      Nat.mul_succ, max_retries]
    simp only [List.length_cons, List.length_nil]
    omega

/-- Query oracle that always succeeds, returning the raw records
1, 2, 3. -/
def qOkList : Query Nat := fun _ _ _ => .ok [1, 2, 3]

/-- Decode oracle that accepts even raw records and rejects odd ones. -/
def dEven : Decode Nat Nat := fun r => if r % 2 == 0 then .ok r else .error ()

/-- C1, counterexample: for the range [0, 25000] with chunk width 9900 the
code does NOT produce the windows [0,9900], [9901,19800], [19801,25000]
stated by the spec, neither as its computed window list nor as the bounds
of the issued queries (because each next window starts at
`min(start + 9900, to) + 1`, the second window is [9901,19801], not
[9901,19800]). -/
theorem c1_spec_windows_refuted :
    windows chunk_size 0 25000 ≠ [(0, 9900), (9901, 19800), (19801, 25000)] ∧
    (get_historical_events qOkEmpty dOk 0 25000).queries.map (fun t => (t.1, t.2.1))
      ≠ [(0, 9900), (9901, 19800), (19801, 25000)] := by
  decide

/-- C1, amended: for the range [0, 25000] with chunk width 9900,
`get_historical_events` generates exactly 3 windows with inclusive bounds
[0,9900], [9901,19801], [19802,25000], and issues the per-window queries
in exactly that order (one query per window when the query succeeds at
the first attempt). -/
theorem c1_windows_corrected :
    windows chunk_size 0 25000 = [(0, 9900), (9901, 19801), (19802, 25000)] ∧
    (get_historical_events qOkEmpty dOk 0 25000).queries
      = [(0, 9900, 0), (9901, 19801, 0), (19802, 25000, 0)] := by
  decide

/-- C2: for every range with `s ≤ hi`, the windows of the scan partition
the inclusive range [s, hi] exactly — sequential, non-overlapping,
contiguous (each window starts one block past its predecessor's end),
ascending, each spanning at most the fixed chunk width — and the queries
`get_historical_events` issues walk exactly those windows in that order. -/
theorem c2_window_partition (s hi : Nat) (h : s ≤ hi) :
    coversRange s hi (windows chunk_size s hi) = true ∧
    windows chunk_size s hi ≠ [] ∧
    (∀ w ∈ windows chunk_size s hi, w.1 ≤ w.2 ∧ w.2 - w.1 ≤ chunk_size) ∧
    (∀ d : Decode Nat Nat,
      (get_historical_events qOkEmpty d s hi).queries.map (fun t => (t.1, t.2.1))
        = windows chunk_size s hi) := by
  refine ⟨windowsF_covers chunk_size hi _ s (Nat.le_refl _) h,
    windows_ne_nil chunk_size s hi h,
    fun w hw => windowsF_width chunk_size hi _ s w hw, ?_⟩
  intro d
  rw [get_eq_runWindows]
  exact runWindows_qOkEmpty_queries d _

/-- C2 witness: instantiation of `c2_window_partition` at the concrete
range [0, 25000]. -/
theorem c2_witness :
    coversRange 0 25000 (windows chunk_size 0 25000) = true ∧
    windows chunk_size 0 25000 ≠ [] ∧
    (∀ w ∈ windows chunk_size 0 25000, w.1 ≤ w.2 ∧ w.2 - w.1 ≤ chunk_size) ∧
    (∀ d : Decode Nat Nat,
      (get_historical_events qOkEmpty d 0 25000).queries.map (fun t => (t.1, t.2.1))
        = windows chunk_size 0 25000) :=
  c2_window_partition 0 25000 (by decide)

/-- C3: if one window's query raises on every retry attempt, that window
is skipped (the skipped count is at least 1) and the scan continues: the
returned event sequence is still the in-order concatenation of every
other window's successfully decoded records, with the failing window
contributing nothing. -/
theorem c3_skipped_window_scan_continues (q : Query Nat) (d : Decode Nat Nat)
    (s hi : Nat) (w : Nat × Nat) (hw : w ∈ windows chunk_size s hi)
    (hfail : ∀ a, a < max_retries → isError (q w.1 w.2 a) = true) :
    1 ≤ (get_historical_events q d s hi).skipped ∧
    (get_historical_events q d s hi).events
      = ((windows chunk_size s hi).map
          (fun v => if v = w then [] else (processWindow q d v.1 v.2).events)).flatMap id := by
  have hpw := processWindow_fail q d w.1 w.2 hfail
  rw [get_eq_runWindows, runWindows_spec]
  constructor
  · exact one_le_length_filter _ _ w hw (by simp [hpw.2.1])
  · exact flatMap_if_eq (fun v => (processWindow q d v.1 v.2).events) w hpw.1
      (windows chunk_size s hi)

/-- C3 witness: instantiation of `c3_skipped_window_scan_continues` with
a query that raises on every attempt for the middle window of
[0, 25000] and succeeds elsewhere. -/
theorem c3_witness :
    1 ≤ (get_historical_events qMidFail dOk 0 25000).skipped ∧
    (get_historical_events qMidFail dOk 0 25000).events
      = ((windows chunk_size 0 25000).map
          (fun v => if v = ((9901, 19801) : Nat × Nat) then []
            else (processWindow qMidFail dOk v.1 v.2).events)).flatMap id :=
  c3_skipped_window_scan_continues qMidFail dOk 0 25000 (9901, 19801)
    (by decide) (by decide)

/-- C4: for every block range and every behaviour of the query and decode
oracles, `get_historical_events` returns a well-defined outcome — the
window-by-window fold of the scan — and in particular, when both
collaborators raise on every call, it still returns the empty event list
instead of propagating the failure. -/
theorem c4_total_no_exception (q : Query Nat) (d : Decode Nat Nat) (s hi : Nat) :
    get_historical_events q d s hi = runWindows q d (windows chunk_size s hi) ∧
    (get_historical_events qAllFail dAllFail s hi).events = [] := by
  refine ⟨get_eq_runWindows q d s hi, ?_⟩
  rw [get_eq_runWindows, runWindows_qAllFail]

/-- C5, counterexample: the script has no fallback endpoints
(`fallback_count = 0`), so the spec's cap of `1 + fallback_count = 1`
attempts per logical call is violated: a single window's query is
attempted 3 times when the first two attempts raise. -/
theorem c5_retry_cap_refuted :
    (get_historical_events qTwoFail dOk 0 0).queries.length = 3 ∧
    ¬ (get_historical_events qTwoFail dOk 0 0).queries.length ≤ 1 + fallback_count := by
  decide

/-- C5, amended: the number of attempts per logical call (one window's
log query) is capped at exactly `max_retries = 3` — a constant, the
script having no fallback-endpoint mechanism — every recorded attempt
index is below `max_retries`, and the whole-scan loop terminates: any
fuel at least the size of the range computes the same result. -/
theorem c5_retry_cap_amended (q : Query Nat) (d : Decode Nat Nat) (s hi : Nat) :
    (∀ a b : Nat, (processWindow q d a b).queries.length ≤ max_retries) ∧
    (∀ t ∈ (get_historical_events q d s hi).queries, t.2.2 < max_retries) ∧
    (∀ fuel, hi + 1 - s ≤ fuel →
      chunkLoopF q d fuel s hi = get_historical_events q d s hi) := by
  refine ⟨?_, ?_, ?_⟩
  · intro a b
    exact attemptLoop_queries_length q d a b max_retries 0
  · intro t ht
    rw [get_eq_runWindows, runWindows_spec] at ht
    simp only [List.mem_flatMap] at ht
    obtain ⟨w, hw, htw⟩ := ht
    have hmem := attemptLoop_queries_mem q d w.1 w.2 max_retries 0 t htw
    omega
  · intro fuel hfuel
    rw [chunkLoopF_eq_runWindows, get_eq_runWindows]
    congr 1
    exact windowsF_congr fuel _ s hi hfuel (Nat.le_refl _)

/-- C5 witness: the termination part of `c5_retry_cap_amended` at the
concrete range [0, 25000] with surplus fuel. -/
theorem c5_witness :
    chunkLoopF qOkEmpty dOk 30000 0 25000 = get_historical_events qOkEmpty dOk 0 25000 :=
  (c5_retry_cap_amended qOkEmpty dOk 0 25000).2.2 30000 (by decide)

/-- C6: when a window's query succeeds, every retrieved raw record that
the decode oracle rejects is dropped and counted while the remaining
records of the same window are kept in order, and the decode failure
never escalates: the attempt still succeeds. -/
theorem c6_decode_failures_dropped (q : Query Nat) (d : Decode Nat Nat)
    (s e a : Nat) (raws : List Nat) (hq : q s e a = Except.ok raws) :
    processAttempt q d s e a = Except.ok (decodeRecords d raws) ∧
    (decodeRecords d raws).1 = raws.filterMap (fun r => (d r).toOption) ∧
    (decodeRecords d raws).2 = (raws.filter (fun r => isError (d r))).length ∧
    (decodeRecords d raws).1.length + (decodeRecords d raws).2 = raws.length := by
  refine ⟨?_, decodeRecords_fst d raws, decodeRecords_snd d raws,
    decodeRecords_length d raws⟩
  simp [processAttempt, hq]

/-- C6 witness: instantiation of `c6_decode_failures_dropped` with a
query returning the records 1, 2, 3 and a decode oracle rejecting the
odd ones. -/
theorem c6_witness :
    processAttempt qOkList dEven 0 5 0 = Except.ok (decodeRecords dEven [1, 2, 3]) ∧
    (decodeRecords dEven [1, 2, 3]).1
      = ([1, 2, 3] : List Nat).filterMap (fun r => (dEven r).toOption) ∧
    (decodeRecords dEven [1, 2, 3]).2
      = (([1, 2, 3] : List Nat).filter (fun r => isError (dEven r))).length ∧
    (decodeRecords dEven [1, 2, 3]).1.length + (decodeRecords dEven [1, 2, 3]).2
      = ([1, 2, 3] : List Nat).length :=
  c6_decode_failures_dropped qOkList dEven 0 5 0 [1, 2, 3] rfl

/-- C7: the returned value of `get_historical_events` is the in-order
concatenation of every window's successfully decoded records, and the
skipped-window and dropped-record diagnostics count exactly the
exhausted windows and the rejected records; in the concrete scenario
where only the middle window of [0, 25000] exhausts all attempts, the
skipped count is 1 and the events are those of windows 1 and 3 in
ascending order. -/
theorem c7_concatenation_and_counts :
    (∀ (q : Query Nat) (d : Decode Nat Nat) (s hi : Nat),
      (get_historical_events q d s hi).events
        = (windows chunk_size s hi).flatMap
            (fun w => (processWindow q d w.1 w.2).events) ∧
      (get_historical_events q d s hi).skipped
        = ((windows chunk_size s hi).filter
            (fun w => !(processWindow q d w.1 w.2).ok)).length ∧
      (get_historical_events q d s hi).dropped
        = ((windows chunk_size s hi).map
            (fun w => (processWindow q d w.1 w.2).dropped)).sum) ∧
    (get_historical_events qMidFail dOk 0 25000).skipped = 1 ∧
    (get_historical_events qMidFail dOk 0 25000).events = [0, 9900, 19802, 25000] := by
  refine ⟨?_, by decide, by decide⟩
  intro q d s hi
  rw [get_eq_runWindows, runWindows_spec]
  exact ⟨rfl, rfl, rfl⟩

/-- C8, counterexample: a persistent structural failure (the query raises
on every call, as when the event name is absent from the ABI) is NOT
abandoned at the whole-fetch level: the first window is retried (an
attempt with index 1 is issued) and the second window is still queried;
the returned event list is empty. -/
theorem c8_whole_fetch_abandon_refuted :
    (0, 9900, 1) ∈ (get_historical_events qAllFail dOk 0 25000).queries ∧
    (9901, 19801, 0) ∈ (get_historical_events qAllFail dOk 0 25000).queries ∧
    (get_historical_events qAllFail dOk 0 25000).events = [] := by
  decide

/-- C8, amended: a structural failure is handled like any other
exception: every window of the range is attempted `max_retries` times
and then skipped, and the fetch returns the empty event list with one
skipped-window diagnostic per window — there is no whole-fetch
abandonment. -/
theorem c8_structural_failure_amended (d : Decode Nat Nat) (s hi : Nat) :
    (get_historical_events qAllFail d s hi).events = [] ∧
    (get_historical_events qAllFail d s hi).skipped = (windows chunk_size s hi).length ∧
    (get_historical_events qAllFail d s hi).queries.length
      = max_retries * (windows chunk_size s hi).length := by
  rw [get_eq_runWindows, runWindows_qAllFail]
  exact ⟨rfl, rfl, length_flatMap_three _⟩

/-- C9: for every non-empty burn-event list, `analyze_burn_period`
returns the list length as `total_burns`, the decimal strings of the
amounts' sum, of the floor of sum divided by count, and of the maximum
and minimum amount, and the number of distinct user addresses as
`unique_burners`; for the empty list it returns the all-zero record. -/
theorem c9_analyze_burn_period :
    (∀ evs : List BurnEvent, evs ≠ [] → burnStatsCorrect evs) ∧
    analyze_burn_period [] = ⟨0, "0", "0", 0, "0", "0"⟩ := by
  constructor
  · intro evs hne
    have hF : evs.isEmpty = false := by
      cases evs with
      | nil => exact absurd rfl hne
      | cons a l => rfl
    have hmapne : evs.map (fun e => e.amount) ≠ [] := by
      cases evs with
      | nil => exact absurd rfl hne
      | cons a l => simp
    have hAm : (evs.map (fun e => e.amount)).isEmpty = false := by
      cases evs with
      | nil => exact absurd rfl hne
      | cons a l => rfl
    have hstats : analyze_burn_period evs =
        ⟨evs.length,
         Nat.repr (evs.map (fun e => e.amount)).sum,
         Nat.repr ((evs.map (fun e => e.amount)).sum / evs.length),
         (evs.map (fun e => e.user)).dedup.length,
         Nat.repr (listMax (evs.map (fun e => e.amount))),
         Nat.repr (listMin (evs.map (fun e => e.amount)))⟩ := by
      simp [analyze_burn_period, hF, hAm]
    unfold burnStatsCorrect
    rw [hstats]
    refine ⟨rfl, rfl, rfl, (List.card_toFinset _).symm, ?_, ?_⟩
    · obtain ⟨hmem, hle⟩ := listMax_spec _ hmapne
      exact ⟨listMax (evs.map fun e => e.amount), hmem, hle, rfl⟩
    · obtain ⟨hmem, hle⟩ := listMin_spec _ hmapne
      exact ⟨listMin (evs.map fun e => e.amount), hmem, hle, rfl⟩
  · rfl

/-- C9 witness: instantiation of `c9_analyze_burn_period` at a concrete
three-event list with a repeated burner. -/
theorem c9_witness :
    burnStatsCorrect [⟨5, "a"⟩, ⟨3, "b"⟩, ⟨5, "a"⟩] ∧
    analyze_burn_period [] = ⟨0, "0", "0", 0, "0", "0"⟩ :=
  ⟨c9_analyze_burn_period.1 [⟨5, "a"⟩, ⟨3, "b"⟩, ⟨5, "a"⟩] (by decide),
   c9_analyze_burn_period.2⟩

/-- C10: when `from_block > to_block` the loop body never runs:
`get_historical_events` issues no query at all and returns the empty
list (with zero skipped and dropped counts). -/
theorem c10_empty_range (q : Query Nat) (d : Decode Nat Nat) (s hi : Nat)
    (h : hi < s) : get_historical_events q d s hi = ⟨[], 0, 0, []⟩ := by
  have hfuel : hi + 1 - s = 0 := by omega
  unfold get_historical_events
  rw [hfuel]
  rfl

/-- C10 witness: instantiation of `c10_empty_range` at the inverted
range [5, 3]. -/
theorem c10_witness : get_historical_events qOkEmpty dOk 5 3 = ⟨[], 0, 0, []⟩ :=
  c10_empty_range qOkEmpty dOk 5 3 (by decide)

end FetchStats
